import Mathlib

/-!
# Rule server: registry loading and HTTP lookup

A shallow embedding of `main.go`: the rule loader (the `filepath.Walk`
callback and its insertion loop), the pack manifest load, and the two HTTP
handlers `HandleRule` and `HandlePack`.

Conventions of the embedding:

* a Go `map[string]V` is an association list with at most one entry per key
  once built through `GoMap.set`; a `nil` map and an empty map read alike and
  are both the empty list;
* the file system, the directory walk and the YAML library are the
  environment `Env`: the program only sees their results;
* a run-time panic and `log.Fatalln` are explicit outcomes;
* Go strings are byte strings; the only string operations the program uses
  compare and cut at ASCII text, for which characters and bytes agree;
* the lines the handlers write to the log are left out: they do not touch
  the response.
-/

namespace RuleServer

/-! ## Go maps -/

/-- A Go `map[string]V`. -/
abbrev GoMap (V : Type) := List (String × V)

namespace GoMap

/-- The comma-ok lookup `v, ok := m[k]`: `none` when `k` is not a key. -/
def get {V : Type} : GoMap V → String → Option V
  | [], _ => none
  | (k', v) :: rest, k => if k' = k then some v else get rest k

/-- The map without its entries under `k`. -/
def delete {V : Type} : GoMap V → String → GoMap V
  | [], _ => []
  | (k', v) :: rest, k => if k' = k then delete rest k else (k', v) :: delete rest k

/-- The assignment `m[k] = v`: any earlier entry under `k` is replaced. -/
def set {V : Type} (m : GoMap V) (k : String) (v : V) : GoMap V :=
  (k, v) :: m.delete k

/-- The builtin `len(m)`. -/
def len {V : Type} (m : GoMap V) : Nat := m.length

/-- The keys of the map. -/
def keys {V : Type} (m : GoMap V) : List String := m.map Prod.fst

/-- The plain index expression `m[k]`: the zero value when `k` is not a key. -/
def index {V : Type} (zero : V) (m : GoMap V) (k : String) : V :=
  (m.get k).getD zero

end GoMap

/-! ## Data model (`main.go` lines 19-27) -/

/-- A decoded YAML value held in an `interface{}`. -/
inductive Value where
  | null
  | bool (b : Bool)
  | int (n : Int)
  | float (text : String)
  | str (s : String)
  | seq (items : List Value)
  | map (entries : List (Value × Value))

/-- The Go type `Rule`, `map[string]interface{}`. -/
abbrev Rule := GoMap Value

/-- The zero value of `Rule`: the nil map, which has no field. -/
def Rule.zero : Rule := []

/-- The Go type `RuleFile`: the top-level `rules` list. -/
structure RuleFile where
  Rules : List Rule

/-- The Go type `PackFile`: the top-level `packs` mapping. -/
structure PackFile where
  Packs : GoMap (List String)

/-- The Go type `rulesHandler`. -/
structure rulesHandler where
  rules : GoMap Rule
  packs : GoMap (List String)

/-! ## Strings and paths (Go standard library) -/

/-- Go `strings.HasPrefix`. -/
def HasPrefix (s pre : String) : Bool := pre.data.isPrefixOf s.data

/-- Go `strings.TrimPrefix`: `s` without the leading `pre` when `s` starts
with it, and `s` itself otherwise. -/
def TrimPrefix (s pre : String) : String :=
  if HasPrefix s pre then ⟨s.data.drop pre.data.length⟩ else s

/-- The backwards scan of `filepath.Ext` over the reversed path: stop at a
path separator, cut at the first dot met. -/
def extScan : List Char → List Char → List Char
  | [], _ => []
  | c :: rest, acc =>
    if c = '/' then []
    else if c = '.' then '.' :: acc
    else extScan rest (c :: acc)

/-- Go `filepath.Ext` (with `/` as the path separator): the suffix starting
at the last dot of the last path element, or the empty string. -/
def Ext (path : String) : String := ⟨extScan path.data.reverse []⟩

/-! ## Loader (`main.go` lines 36-66) -/

/-- Lines written to the process log during start-up. -/
inductive LogEvent where
  | errorReading (path : String)
  | errorLoading (path : String)
  | loadedRules (n : Nat)
  | unknownRule (pack : List String) (rule : String)
  | loadedPacks (n : Nat)
  | listening (addr : String)
  | fatalError

/-- One call of the walk callback: the path visited and whether
`filepath.Walk` reports an error for it. -/
structure WalkEntry where
  path : String
  err : Bool

/-- What the program observes of its surroundings. -/
structure Env where
  /-- Visits `filepath.Walk` makes below a root, in walk order. -/
  walk : String → List WalkEntry
  /-- Result of `ioutil.ReadFile`; `none` is an error. -/
  readFile : String → Option String
  /-- Result of `yaml.Unmarshal` into a `RuleFile`; `none` is an error. -/
  unmarshalRules : String → Option RuleFile
  /-- Result of `yaml.Unmarshal` into a `PackFile`; `none` is an error. -/
  unmarshalPacks : String → Option PackFile
  /-- Whether `ListenAndServe` binds the address and starts accepting;
  `false` is an error returned instead (other than `ErrServerClosed`). -/
  listen : String → Bool

/-- How the walk stands: still running, ended early because the callback
returned the walk error, or unwound by a panic. -/
inductive Flow where
  | running
  | stopped
  | panicked
  deriving DecidableEq

/-- The state of the loading walk: the `rules` map, the log, the control flow. -/
structure LoadState where
  rules : GoMap Rule
  log : List LogEvent
  flow : Flow

/-- The state at line 36: `rules := make(map[string]Rule)`. -/
def LoadState.init : LoadState := { rules := [], log := [], flow := Flow.running }

/-- The type assertion `rr["id"].(string)`: the string under `id`, or `none`
when the field is missing or holds anything but a string (the assertion
panics). -/
def ruleId (rr : Rule) : Option String :=
  match rr.get "id" with
  | some (Value.str s) => some s
  | _ => none

/-- The loop of lines 59-61: `rules[rr["id"].(string)] = rr` for each rule in
turn. The index expression is evaluated before the assignment, so a failed
assertion leaves the map as it was and unwinds. -/
def insertRules (st : LoadState) : List Rule → LoadState
  | [] => st
  | rr :: rest =>
    match ruleId rr with
    | none => { st with flow := Flow.panicked }
    | some id => insertRules { st with rules := st.rules.set id rr } rest

/-- The callback passed to `filepath.Walk` (lines 38-64). -/
def walkFn (env : Env) (st : LoadState) (e : WalkEntry) : LoadState :=
  if e.err then { st with flow := Flow.stopped }
  else if Ext e.path ≠ ".yml" then st
  else
    match env.readFile e.path with
    | none => { st with log := st.log ++ [LogEvent.errorReading e.path] }
    | some b =>
      match env.unmarshalRules b with
      | none => { st with log := st.log ++ [LogEvent.errorLoading e.path] }
      | some r => insertRules st r.Rules

/-- The traversal `filepath.Walk` drives: the callback is run on each visit
until it returns an error or panics. -/
def Walk (env : Env) : LoadState → List WalkEntry → LoadState
  | st, [] => st
  | st, e :: rest =>
    match (walkFn env st e).flow with
    | Flow.running => Walk env (walkFn env st e) rest
    | _ => walkFn env st e

/-- Lines 36-64: the rule table after walking `dir`. -/
def loadRules (env : Env) (dir : String) : LoadState :=
  Walk env LoadState.init (env.walk dir)

/-! ## Pack manifest and start-up (`main.go` lines 29-104) -/

/-- The inner loop of lines 82-86 for one pack: a log line for each id that
is not a key of the rule table. -/
def checkPack (rules : GoMap Rule) (v : List String) : List String → List LogEvent
  | [] => []
  | r :: rest =>
    match rules.get r with
    | none => LogEvent.unknownRule v r :: checkPack rules v rest
    | some _ => checkPack rules v rest

/-- The loop of lines 81-87 over all packs. -/
def checkPacks (rules : GoMap Rule) : GoMap (List String) → List LogEvent
  | [] => []
  | (_, v) :: rest => checkPack rules v v ++ checkPacks rules rest

/-- The command-line flags. -/
structure Flags where
  dir : String
  listen : String
  packyml : String

/-- The defaults of lines 30-32. -/
def Flags.default : Flags :=
  { dir := "./patterns/", listen := ":8080", packyml := "./patterns/packs.yml" }

/-- How start-up ends: a panic during the walk; `log.Fatalln` on the manifest
(lines 73 and 77, the process exits before the handler of line 92 exists);
`log.Fatalln` on the error `ListenAndServe` returns (line 116, the handler is
built but the listener is not bound); or the listener bound and accepting,
the Serving state. -/
inductive Startup where
  | panicked (log : List LogEvent)
  | fatal (log : List LogEvent)
  | listenFailed (handler : rulesHandler) (addr : String) (log : List LogEvent)
  | serving (handler : rulesHandler) (addr : String) (log : List LogEvent)

/-- Lines 68-88, the manifest load with rule table `rules`: the pack table
and the lines logged by the reference check, or the line `log.Fatalln` prints
before the process exits. With the empty path nothing is read and `packs`
keeps its zero value. -/
def loadPacks (env : Env) (packyml : String) (rules : GoMap Rule) :
    Except LogEvent (GoMap (List String) × List LogEvent) :=
  if packyml ≠ "" then
    match env.readFile packyml with
    | none => Except.error (LogEvent.errorReading packyml)
    | some b =>
      match env.unmarshalPacks b with
      | none => Except.error (LogEvent.errorLoading packyml)
      | some packs => Except.ok (packs.Packs, checkPacks rules packs.Packs)
  else Except.ok ([], [])

/-- The function `main` through line 119: the two loads, the handler, and
the outcome of `ListenAndServe`. The wait for a signal and the shutdown
(lines 121-132) come after Serving and are not part of start-up. -/
def main (env : Env) (flags : Flags) : Startup :=
  let st := loadRules env flags.dir
  match st.flow with
  | Flow.panicked => Startup.panicked st.log
  | _ =>
    match loadPacks env flags.packyml st.rules with
    | Except.error ev =>
      Startup.fatal (st.log ++ [LogEvent.loadedRules st.rules.len] ++ [ev])
    | Except.ok (packs, plog) =>
      if env.listen flags.listen then
        Startup.serving { rules := st.rules, packs := packs } flags.listen
          (st.log ++ [LogEvent.loadedRules st.rules.len] ++ plog
            ++ [LogEvent.loadedPacks packs.len, LogEvent.listening flags.listen])
      else
        Startup.listenFailed { rules := st.rules, packs := packs } flags.listen
          (st.log ++ [LogEvent.loadedRules st.rules.len] ++ plog
            ++ [LogEvent.loadedPacks packs.len, LogEvent.listening flags.listen,
              LogEvent.fatalError])

/-! ## HTTP handlers (`main.go` lines 135-179) -/

/-- The parsed URL of a request: Go `url.URL`, the fields that matter here. -/
structure URL where
  Path : String
  RawQuery : String

/-- Go `http.Request`: the method, the parsed URL, and `RequestURI`, the
request-target exactly as it stood on the request line (path and, when
present, `?` and the query string). -/
structure Request where
  Method : String
  URL : URL
  RequestURI : String

/-- What was written to the response body. -/
inductive Body where
  /-- Plain text. -/
  | text (s : String)
  /-- The YAML encoding of a `RuleFile`, as written by `yaml.NewEncoder(w).Encode`. -/
  | yaml (f : RuleFile)

/-- The response a handler leaves behind. -/
structure Response where
  status : Nat
  contentType : String
  body : Body

/-- Go `http.NotFound`. -/
def NotFound : Response :=
  { status := 404, contentType := "text/plain; charset=utf-8",
    body := Body.text "404 page not found\n" }

/-- The key `HandleRule` looks up (line 143). -/
def ruleKey (r : Request) : String := TrimPrefix r.RequestURI "/r/"

/-- The key `HandlePack` looks up (line 160). -/
def packKey (r : Request) : String := TrimPrefix r.RequestURI "/p/"

/-- The method `rulesHandler.HandleRule` (lines 142-157). The status is the
200 that the first write to the response implies. -/
def HandleRule (rh : rulesHandler) (r : Request) : Response :=
  let p := ruleKey r
  match rh.rules.get p with
  | none => NotFound
  | some rule =>
    { status := 200, contentType := "text/yaml", body := Body.yaml { Rules := [rule] } }

/-- The loop of lines 170-172: `f.Rules = append(f.Rules, rh.rules[rule])`. -/
def appendRules (rules : GoMap Rule) (acc : List Rule) : List String → List Rule
  | [] => acc
  | rule :: rest => appendRules rules (acc ++ [GoMap.index Rule.zero rules rule]) rest

/-- The method `rulesHandler.HandlePack` (lines 159-179). -/
def HandlePack (rh : rulesHandler) (r : Request) : Response :=
  let p := packKey r
  match rh.packs.get p with
  | none => NotFound
  | some rules =>
    { status := 200, contentType := "text/yaml",
      body := Body.yaml { Rules := appendRules rh.rules [] rules } }

/-- A server request as `net/http` hands it to a handler when the request
line carries the path `target` with no query string and no percent escape:
the parsed path and the request-target coincide. -/
def Request.plain (method target : String) : Request :=
  { Method := method, URL := { Path := target, RawQuery := "" }, RequestURI := target }

/-! ## Specification vocabulary -/

/-- The rule documents the walk hands to the insertion loop, in processing
order: the visits before the first walk error whose path has extension
`.yml` and whose file reads and parses. -/
def parsedDocs (env : Env) : List WalkEntry → List RuleFile
  | [] => []
  | e :: rest =>
    if e.err then []
    else if Ext e.path ≠ ".yml" then parsedDocs env rest
    else
      match env.readFile e.path with
      | none => parsedDocs env rest
      | some b =>
        match env.unmarshalRules b with
        | none => parsedDocs env rest
        | some r => r :: parsedDocs env rest

/-- The flattened rule sequence: document order, then order within a document. -/
def flattenRules : List RuleFile → List Rule
  | [] => []
  | d :: ds => d.Rules ++ flattenRules ds

/-- The last rule of a sequence whose id is `k`. -/
def lastWithId (k : String) : List Rule → Option Rule
  | [] => none
  | r :: rest =>
    match lastWithId k rest with
    | some r' => some r'
    | none => if ruleId r = some k then some r else none

/-- A visit that is logged or passed over without touching the rule table:
no walk error, and the extension is not `.yml`, or the file does not read,
or its content does not parse. -/
def WalkEntry.skipped (env : Env) (e : WalkEntry) : Bool :=
  !e.err &&
    (decide (Ext e.path ≠ ".yml") ||
      match env.readFile e.path with
      | none => true
      | some b => (env.unmarshalRules b).isNone)

/-! ## Sample data -/

/-- The rule `id: sql-injection, severity: high`. -/
def sqlInjection : Rule :=
  [("id", Value.str "sql-injection"), ("severity", Value.str "high")]

/-- A later rule under the same id, `severity: low`. -/
def sqlInjectionLow : Rule :=
  [("id", Value.str "sql-injection"), ("severity", Value.str "low")]

/-- A rule whose `id` is a number. -/
def numericId : Rule := [("id", Value.int 7)]

/-- A registry holding `sql-injection` and the pack `web: [sql-injection, xss]`. -/
def sampleHandler : rulesHandler :=
  { rules := [("sql-injection", sqlInjection)],
    packs := [("web", ["sql-injection", "xss"])] }

/-- The request `GET /r/sql-injection?x=1`. -/
def queryRequest : Request :=
  { Method := "GET", URL := { Path := "/r/sql-injection", RawQuery := "x=1" },
    RequestURI := "/r/sql-injection?x=1" }

/-- The rule directory `./patterns/` as `filepath.Walk` visits it: the root as
given, then the entries in lexical order under their cleaned paths. Two rule
files carry the same id, `bad.yml` does not parse, `locked.yml` does not
read, `notes.txt` is a text file, `packs.yml` is the manifest. Only the
address `:8080` can be bound. -/
def sampleEnv : Env :=
  { walk := fun dir =>
      if dir = "./patterns/" then
        [⟨"./patterns/", false⟩, ⟨"patterns/a.yml", false⟩, ⟨"patterns/b.yml", false⟩,
          ⟨"patterns/bad.yml", false⟩, ⟨"patterns/locked.yml", false⟩,
          ⟨"patterns/notes.txt", false⟩, ⟨"patterns/packs.yml", false⟩]
      else [⟨dir, true⟩],
    readFile := fun path =>
      if path = "patterns/a.yml" then some "rules: [sql-injection high]"
      else if path = "patterns/b.yml" then some "rules: [sql-injection low]"
      else if path = "patterns/bad.yml" then some "rules: ["
      else if path = "patterns/notes.txt" then some "notes"
      else if path = "patterns/packs.yml" then some "packs: web"
      else if path = "./patterns/packs.yml" then some "packs: web"
      else none,
    unmarshalRules := fun b =>
      if b = "rules: [sql-injection high]" then some { Rules := [sqlInjection] }
      else if b = "rules: [sql-injection low]" then some { Rules := [sqlInjectionLow] }
      else if b = "packs: web" then some { Rules := [] }
      else none,
    unmarshalPacks := fun b =>
      if b = "packs: web" then some { Packs := [("web", ["sql-injection", "xss"])] }
      else none,
    listen := fun addr => decide (addr = ":8080") }

/-- The rule directory `rules` whose second file holds a rule with a numeric
id. -/
def faultyEnv : Env :=
  { walk := fun dir =>
      if dir = "rules" then
        [⟨"rules", false⟩, ⟨"rules/a.yml", false⟩, ⟨"rules/b.yml", false⟩,
          ⟨"rules/c.yml", false⟩]
      else [⟨dir, true⟩],
    readFile := fun path =>
      if path = "rules/a.yml" then some "a"
      else if path = "rules/b.yml" then some "b"
      else if path = "rules/c.yml" then some "c"
      else none,
    unmarshalRules := fun b =>
      if b = "a" then some { Rules := [sqlInjection] }
      else if b = "b" then some { Rules := [numericId] }
      else if b = "c" then some { Rules := [sqlInjectionLow] }
      else none,
    unmarshalPacks := fun _ => none,
    listen := fun _ => true }

/-- The flags with a manifest path at which there is no file. -/
def missingManifest : Flags :=
  { dir := "./patterns/", listen := ":8080", packyml := "./patterns/missing.yml" }

/-- The flags with the manifest path set to the empty string. -/
def noManifest : Flags := { dir := "./patterns/", listen := ":8080", packyml := "" }

/-- The default flags with a listen address that cannot be bound. -/
def badListen : Flags :=
  { dir := "./patterns/", listen := "nonsense", packyml := "./patterns/packs.yml" }

/-! ## Go maps: lookup after assignment -/

theorem GoMap.get_delete_self {V : Type} (m : GoMap V) (k : String) :
    (m.delete k).get k = none := by
  induction m with
  | nil => rfl
  | cons e rest ih =>
    obtain ⟨a, v⟩ := e
    by_cases h : a = k
    · simp [GoMap.delete, h, ih]
    · simp [GoMap.delete, GoMap.get, h, ih]

theorem GoMap.get_delete_ne {V : Type} (m : GoMap V) (k k' : String) (h : k ≠ k') :
    (m.delete k).get k' = m.get k' := by
  induction m with
  | nil => rfl
  | cons e rest ih =>
    obtain ⟨a, v⟩ := e
    by_cases h1 : a = k
    · have h2 : ¬ a = k' := fun h3 => h (h1.symm.trans h3)
      simp only [GoMap.delete, if_pos h1, GoMap.get, if_neg h2]
      exact ih
    · by_cases h2 : a = k'
      · simp only [GoMap.delete, if_neg h1, GoMap.get, if_pos h2]
      · simp only [GoMap.delete, if_neg h1, GoMap.get, if_neg h2]
        exact ih

theorem GoMap.get_set_self {V : Type} (m : GoMap V) (k : String) (v : V) :
    (m.set k v).get k = some v := by
  simp [GoMap.set, GoMap.get]

theorem GoMap.get_set_ne {V : Type} (m : GoMap V) (k k' : String) (v : V) (h : k ≠ k') :
    (m.set k v).get k' = m.get k' := by
  simp only [GoMap.set, GoMap.get, if_neg h]
  exact GoMap.get_delete_ne m k k' h

theorem GoMap.get_eq_none_iff {V : Type} (m : GoMap V) (k : String) :
    m.get k = none ↔ k ∉ m.keys := by
  induction m with
  | nil => simp [GoMap.get, GoMap.keys]
  | cons e rest ih =>
    obtain ⟨a, v⟩ := e
    by_cases h : a = k
    · simp [GoMap.get, GoMap.keys, h]
    · have h2 : ¬ k = a := fun h3 => h h3.symm
      simp only [GoMap.keys] at ih
      simp [GoMap.get, GoMap.keys, h, h2, ih]

theorem GoMap.mem_keys_iff {V : Type} (m : GoMap V) (k : String) :
    k ∈ m.keys ↔ ∃ v, m.get k = some v := by
  rw [← Option.isSome_iff_exists, ← not_iff_not, ← GoMap.get_eq_none_iff]
  cases m.get k <;> simp

theorem GoMap.keys_delete_sublist {V : Type} (m : GoMap V) (k : String) :
    List.Sublist (m.delete k).keys m.keys := by
  induction m with
  | nil => exact List.Sublist.refl _
  | cons e rest ih =>
    obtain ⟨a, v⟩ := e
    by_cases h : a = k
    · simp only [GoMap.delete, if_pos h, GoMap.keys, List.map_cons]
      exact List.Sublist.cons _ ih
    · simp only [GoMap.delete, if_neg h, GoMap.keys, List.map_cons]
      exact List.Sublist.cons₂ _ ih

theorem GoMap.keys_set_nodup {V : Type} (m : GoMap V) (k : String) (v : V)
    (h : m.keys.Nodup) : (m.set k v).keys.Nodup := by
  have h1 : k ∉ (m.delete k).keys := (GoMap.get_eq_none_iff _ _).1 (GoMap.get_delete_self m k)
  have h2 : (m.delete k).keys.Nodup := h.sublist (GoMap.keys_delete_sublist m k)
  simp only [GoMap.set, GoMap.keys, List.map_cons, List.nodup_cons]
  exact ⟨h1, h2⟩

/-! ## Strings -/

theorem TrimPrefix_append (pre k : String) : TrimPrefix (pre ++ k) pre = k := by
  have h : HasPrefix (pre ++ k) pre = true := by
    simp [HasPrefix, String.data_append]
  simp [TrimPrefix, h, String.data_append]

theorem appendRules_eq (rules : GoMap Rule) (acc : List Rule) (ids : List String) :
    appendRules rules acc ids = acc ++ ids.map (GoMap.index Rule.zero rules) := by
  induction ids generalizing acc with
  | nil => simp [appendRules]
  | cons i rest ih => simp [appendRules, ih]

/-! ## The insertion loop -/

theorem insertRules_log (st : LoadState) (l : List LogEvent) (rs : List Rule) :
    insertRules { st with log := l } rs = { insertRules st rs with log := l } := by
  induction rs generalizing st with
  | nil => rfl
  | cons rr rest ih =>
    cases h : ruleId rr with
    | none => simp only [insertRules, h]
    | some id =>
      simp only [insertRules, h]
      exact ih { st with rules := st.rules.set id rr }

theorem insertRules_flow (st : LoadState) (rs : List Rule) :
    (insertRules st rs).flow = st.flow ∨ (insertRules st rs).flow = Flow.panicked := by
  induction rs generalizing st with
  | nil => exact Or.inl rfl
  | cons rr rest ih =>
    cases h : ruleId rr with
    | none =>
      right
      simp only [insertRules, h]
    | some id =>
      simp only [insertRules, h]
      exact ih { st with rules := st.rules.set id rr }

theorem insertRules_panicked_iff (st : LoadState) (rs : List Rule)
    (hst : st.flow ≠ Flow.panicked) :
    (insertRules st rs).flow = Flow.panicked ↔ ∃ r ∈ rs, ruleId r = none := by
  induction rs generalizing st with
  | nil => simp [insertRules, hst]
  | cons rr rest ih =>
    cases h : ruleId rr with
    | none =>
      simp only [insertRules, h, true_iff]
      exact ⟨rr, List.mem_cons_self _ _, h⟩
    | some id =>
      simp only [insertRules, h]
      rw [ih { st with rules := st.rules.set id rr } hst]
      constructor
      · rintro ⟨r, hr, hid⟩
        exact ⟨r, List.mem_cons_of_mem _ hr, hid⟩
      · rintro ⟨r, hr, hid⟩
        rcases List.mem_cons.1 hr with heq | hmem
        · rw [heq, h] at hid
          exact absurd hid (by simp)
        · exact ⟨r, hmem, hid⟩

theorem insertRules_append (st : LoadState) (a b : List Rule) (hst : st.flow = Flow.running) :
    insertRules st (a ++ b) =
      if (insertRules st a).flow = Flow.panicked then insertRules st a
      else insertRules (insertRules st a) b := by
  induction a generalizing st with
  | nil => simp [insertRules, hst]
  | cons rr rest ih =>
    cases h : ruleId rr with
    | none => simp [insertRules, h]
    | some id =>
      simp only [List.cons_append, insertRules, h]
      exact ih { st with rules := st.rules.set id rr } hst

theorem insertRules_nodup (st : LoadState) (rs : List Rule) (h : st.rules.keys.Nodup) :
    (insertRules st rs).rules.keys.Nodup := by
  induction rs generalizing st with
  | nil => exact h
  | cons rr rest ih =>
    cases hid : ruleId rr with
    | none =>
      simp only [insertRules, hid]
      exact h
    | some id =>
      simp only [insertRules, hid]
      exact ih { st with rules := st.rules.set id rr } (GoMap.keys_set_nodup _ _ _ h)

theorem insertRules_keyed (st : LoadState) (rs : List Rule)
    (h : ∀ k r, st.rules.get k = some r → ruleId r = some k) :
    ∀ k r, (insertRules st rs).rules.get k = some r → ruleId r = some k := by
  induction rs generalizing st with
  | nil => exact h
  | cons rr rest ih =>
    cases hid : ruleId rr with
    | none =>
      simp only [insertRules, hid]
      exact h
    | some id =>
      simp only [insertRules, hid]
      apply ih { st with rules := st.rules.set id rr }
      intro k r hk
      by_cases hkid : id = k
      · subst hkid
        rw [show ({ st with rules := st.rules.set id rr } : LoadState).rules
          = st.rules.set id rr from rfl, GoMap.get_set_self] at hk
        cases hk
        exact hid
      · rw [show ({ st with rules := st.rules.set id rr } : LoadState).rules
          = st.rules.set id rr from rfl, GoMap.get_set_ne _ _ _ _ hkid] at hk
        exact h k r hk

theorem lastWithId_eq_none_iff (k : String) (rs : List Rule) :
    lastWithId k rs = none ↔ ∀ r ∈ rs, ruleId r ≠ some k := by
  induction rs with
  | nil => simp [lastWithId]
  | cons rr rest ih =>
    cases h : lastWithId k rest with
    | none =>
      have h1 := ih.1 h
      by_cases hid : ruleId rr = some k
      · simp [lastWithId, h, hid]
      · simp only [lastWithId, h, if_neg hid, true_iff]
        intro r hr
        rcases List.mem_cons.1 hr with heq | hmem
        · rw [heq]
          exact hid
        · exact h1 r hmem
    | some r' =>
      simp only [lastWithId, h]
      refine ⟨fun hc => Option.noConfusion hc, ?_⟩
      intro hall
      have h2 : lastWithId k rest = none := ih.2 (fun r hr => hall r (List.mem_cons_of_mem _ hr))
      rw [h] at h2
      cases h2

theorem lastWithId_of_split (k : String) (pre post : List Rule) (r : Rule)
    (hid : ruleId r = some k) (hpost : ∀ r' ∈ post, ruleId r' ≠ some k) :
    lastWithId k (pre ++ r :: post) = some r := by
  induction pre with
  | nil =>
    have h := (lastWithId_eq_none_iff k post).2 hpost
    simp [lastWithId, h, hid]
  | cons a rest ih => simp [lastWithId, ih]

theorem lastWithId_eq_some_iff (k : String) (rs : List Rule) (r : Rule) :
    lastWithId k rs = some r ↔
      ∃ pre post, rs = pre ++ r :: post ∧ ruleId r = some k ∧
        ∀ r' ∈ post, ruleId r' ≠ some k := by
  constructor
  · induction rs with
    | nil => simp [lastWithId]
    | cons rr rest ih =>
      cases h : lastWithId k rest with
      | none =>
        by_cases hid : ruleId rr = some k
        · simp only [lastWithId, h, if_pos hid, Option.some.injEq]
          intro heq
          subst heq
          exact ⟨[], rest, rfl, hid, (lastWithId_eq_none_iff k rest).1 h⟩
        · simp [lastWithId, h, hid]
      | some r' =>
        simp only [lastWithId, h, Option.some.injEq]
        intro heq
        subst heq
        obtain ⟨pre, post, hsplit, hid, hpost⟩ := ih h
        exact ⟨rr :: pre, post, by rw [hsplit]; rfl, hid, hpost⟩
  · rintro ⟨pre, post, hsplit, hid, hpost⟩
    rw [hsplit]
    exact lastWithId_of_split k pre post r hid hpost

theorem insertRules_get (st : LoadState) (rs : List Rule) (k : String)
    (hids : ∀ r ∈ rs, ruleId r ≠ none) :
    (insertRules st rs).rules.get k =
      match lastWithId k rs with
      | some r => some r
      | none => st.rules.get k := by
  induction rs generalizing st with
  | nil => rfl
  | cons rr rest ih =>
    cases hid : ruleId rr with
    | none => exact absurd hid (hids rr (List.mem_cons_self _ _))
    | some id =>
      have hrest : ∀ r ∈ rest, ruleId r ≠ none := fun r hr => hids r (List.mem_cons_of_mem _ hr)
      simp only [insertRules, hid]
      rw [ih { st with rules := st.rules.set id rr } hrest]
      cases hl : lastWithId k rest with
      | some r' => simp [lastWithId, hl]
      | none =>
        by_cases hkid : id = k
        · subst hkid
          simp [lastWithId, hl, hid, GoMap.get_set_self]
        · have hne : ¬ (some id = some k) := fun h => hkid (Option.some.inj h)
          simp [lastWithId, hl, hid, hkid, GoMap.get_set_ne _ _ _ _ hkid]

/-! ## The walk -/

theorem Walk_cons_running (env : Env) (st : LoadState) (e : WalkEntry) (rest : List WalkEntry)
    (h : (walkFn env st e).flow = Flow.running) :
    Walk env st (e :: rest) = Walk env (walkFn env st e) rest := by
  simp only [Walk, h]

theorem Walk_cons_halt (env : Env) (st : LoadState) (e : WalkEntry) (rest : List WalkEntry)
    (h : (walkFn env st e).flow ≠ Flow.running) :
    Walk env st (e :: rest) = walkFn env st e := by
  unfold Walk
  split
  · next h1 => exact absurd h1 h
  · rfl

theorem mem_flattenRules (ds : List RuleFile) (r : Rule) :
    r ∈ flattenRules ds ↔ ∃ d ∈ ds, r ∈ d.Rules := by
  induction ds with
  | nil => simp [flattenRules]
  | cons d rest ih => simp [flattenRules, ih]

theorem Walk_spec (env : Env) (st : LoadState) (es : List WalkEntry)
    (hst : st.flow = Flow.running) :
    (Walk env st es).rules = (insertRules st (flattenRules (parsedDocs env es))).rules ∧
    ((Walk env st es).flow = Flow.panicked ↔
      (insertRules st (flattenRules (parsedDocs env es))).flow = Flow.panicked) := by
  induction es generalizing st with
  | nil => exact ⟨rfl, Iff.rfl⟩
  | cons e rest ih =>
    by_cases herr : e.err = true
    · have hw : walkFn env st e = { st with flow := Flow.stopped } := by
        simp [walkFn, herr]
      have hp : parsedDocs env (e :: rest) = [] := by simp [parsedDocs, herr]
      have hh : (walkFn env st e).flow ≠ Flow.running := by
        rw [hw]
        exact fun h => Flow.noConfusion h
      rw [Walk_cons_halt env st e rest hh, hw, hp]
      simp [flattenRules, insertRules, hst]
    · by_cases hext : Ext e.path ≠ ".yml"
      · have hw : walkFn env st e = st := by simp [walkFn, herr, hext]
        have hp : parsedDocs env (e :: rest) = parsedDocs env rest := by
          simp [parsedDocs, herr, hext]
        rw [Walk_cons_running env st e rest (by rw [hw]; exact hst), hw, hp]
        exact ih st hst
      · cases hread : env.readFile e.path with
        | none =>
          have hw : walkFn env st e =
              { st with log := st.log ++ [LogEvent.errorReading e.path] } := by
            simp [walkFn, herr, hext, hread]
          have hp : parsedDocs env (e :: rest) = parsedDocs env rest := by
            simp [parsedDocs, herr, hext, hread]
          rw [Walk_cons_running env st e rest (by rw [hw]; exact hst), hw, hp]
          have h := ih { st with log := st.log ++ [LogEvent.errorReading e.path] } hst
          rw [insertRules_log] at h
          exact h
        | some b =>
          cases hparse : env.unmarshalRules b with
          | none =>
            have hw : walkFn env st e =
                { st with log := st.log ++ [LogEvent.errorLoading e.path] } := by
              simp [walkFn, herr, hext, hread, hparse]
            have hp : parsedDocs env (e :: rest) = parsedDocs env rest := by
              simp [parsedDocs, herr, hext, hread, hparse]
            rw [Walk_cons_running env st e rest (by rw [hw]; exact hst), hw, hp]
            have h := ih { st with log := st.log ++ [LogEvent.errorLoading e.path] } hst
            rw [insertRules_log] at h
            exact h
          | some r =>
            have hw : walkFn env st e = insertRules st r.Rules := by
              simp [walkFn, herr, hext, hread, hparse]
            have hp : parsedDocs env (e :: rest) = r :: parsedDocs env rest := by
              simp [parsedDocs, herr, hext, hread, hparse]
            rw [hp, flattenRules, insertRules_append st _ _ hst]
            rcases insertRules_flow st r.Rules with hrun | hpan
            · rw [hst] at hrun
              have hnp : ¬ (insertRules st r.Rules).flow = Flow.panicked := by
                rw [hrun]
                decide
              rw [Walk_cons_running env st e rest (by rw [hw]; exact hrun), hw, if_neg hnp]
              exact ih (insertRules st r.Rules) hrun
            · have hh : (walkFn env st e).flow ≠ Flow.running := by
                rw [hw, hpan]
                exact fun h => Flow.noConfusion h
              rw [Walk_cons_halt env st e rest hh, hw, if_pos hpan]
              exact ⟨rfl, Iff.rfl⟩

theorem loadRules_spec (env : Env) (dir : String) :
    (loadRules env dir).rules =
      (insertRules LoadState.init (flattenRules (parsedDocs env (env.walk dir)))).rules ∧
    ((loadRules env dir).flow = Flow.panicked ↔
      (insertRules LoadState.init (flattenRules (parsedDocs env (env.walk dir)))).flow
        = Flow.panicked) :=
  Walk_spec env LoadState.init (env.walk dir) rfl

theorem loadRules_panicked_iff (env : Env) (dir : String) :
    (loadRules env dir).flow = Flow.panicked ↔
      ∃ d ∈ parsedDocs env (env.walk dir), ∃ r ∈ d.Rules, ruleId r = none := by
  rw [(loadRules_spec env dir).2, insertRules_panicked_iff _ _ (by decide)]
  constructor
  · rintro ⟨r, hr, hid⟩
    obtain ⟨d, hd, hrd⟩ := (mem_flattenRules _ _).1 hr
    exact ⟨d, hd, r, hrd, hid⟩
  · rintro ⟨d, hd, r, hrd, hid⟩
    exact ⟨r, (mem_flattenRules _ _).2 ⟨d, hd, hrd⟩, hid⟩

theorem loadRules_get (env : Env) (dir : String) (k : String)
    (hload : (loadRules env dir).flow ≠ Flow.panicked) :
    (loadRules env dir).rules.get k =
      lastWithId k (flattenRules (parsedDocs env (env.walk dir))) := by
  have hids : ∀ r ∈ flattenRules (parsedDocs env (env.walk dir)), ruleId r ≠ none := by
    intro r hr hid
    obtain ⟨d, hd, hrd⟩ := (mem_flattenRules _ _).1 hr
    exact hload ((loadRules_panicked_iff env dir).2 ⟨d, hd, r, hrd, hid⟩)
  rw [(loadRules_spec env dir).1, insertRules_get _ _ k hids]
  cases lastWithId k (flattenRules (parsedDocs env (env.walk dir))) <;> rfl

theorem parsedDocs_filter (env : Env) (es : List WalkEntry) :
    parsedDocs env (es.filter (fun e => !e.skipped env)) = parsedDocs env es := by
  induction es with
  | nil => rfl
  | cons e rest ih =>
    by_cases herr : e.err = true
    · have hs : e.skipped env = false := by simp [WalkEntry.skipped, herr]
      simp [List.filter_cons, hs, parsedDocs, herr]
    · by_cases hext : Ext e.path ≠ ".yml"
      · have hs : e.skipped env = true := by simp [WalkEntry.skipped, herr, hext]
        simp [List.filter_cons, hs, parsedDocs, herr, hext, ih]
      · cases hread : env.readFile e.path with
        | none =>
          have hs : e.skipped env = true := by simp [WalkEntry.skipped, herr, hread]
          simp [List.filter_cons, hs, parsedDocs, herr, hext, hread, ih]
        | some b =>
          cases hparse : env.unmarshalRules b with
          | none =>
            have hs : e.skipped env = true := by
              simp [WalkEntry.skipped, herr, hread, hparse]
            simp [List.filter_cons, hs, parsedDocs, herr, hext, hread, hparse, ih]
          | some r =>
            have hs : e.skipped env = false := by
              simp only [not_not] at hext
              simp [WalkEntry.skipped, herr, hext, hread, hparse]
            simp [List.filter_cons, hs, parsedDocs, herr, hext, hread, hparse, ih]

theorem mem_checkPack (rules : GoMap Rule) (v ids : List String) (id : String)
    (hid : id ∈ ids) (hnone : rules.get id = none) :
    LogEvent.unknownRule v id ∈ checkPack rules v ids := by
  induction ids with
  | nil => cases hid
  | cons a rest ih =>
    rcases List.mem_cons.1 hid with heq | hmem
    · subst heq
      simp [checkPack, hnone]
    · cases h : rules.get a with
      | none =>
        simp only [checkPack, h]
        exact List.mem_cons_of_mem _ (ih hmem)
      | some x =>
        simp only [checkPack, h]
        exact ih hmem

theorem mem_checkPacks (rules : GoMap Rule) (packs : GoMap (List String)) (name : String)
    (ids : List String) (ev : LogEvent) (hp : (name, ids) ∈ packs)
    (hev : ev ∈ checkPack rules ids ids) : ev ∈ checkPacks rules packs := by
  induction packs with
  | nil => cases hp
  | cons a rest ih =>
    obtain ⟨n, v⟩ := a
    simp only [checkPacks, List.mem_append]
    rcases List.mem_cons.1 hp with heq | hmem
    · cases heq
      exact Or.inl hev
    · exact Or.inr (ih hmem)

/-! ## The HTTP handlers -/

/-- C1: for a pack name `p` that is a key of the pack table with id list
`ids`, `HandlePack` on request URI `/p/` followed by `p` answers 200 with
content type text/yaml and a `rules` list with one element per id, in the
declared order: the rule stored under the id when the id is a key of the rule
table, the zero-value rule otherwise. Repeated ids are repeated and an
unresolved id neither shortens the list nor turns the answer into an error. -/
theorem HandlePack_serves_pack (rh : rulesHandler) (r : Request) (p : String)
    (ids : List String) (huri : r.RequestURI = "/p/" ++ p)
    (hp : rh.packs.get p = some ids) :
    ∃ out : List Rule,
      HandlePack rh r =
        { status := 200, contentType := "text/yaml", body := Body.yaml { Rules := out } } ∧
      out.length = ids.length ∧
      (∀ (k : Nat) (id : String), ids[k]? = some id →
        (∀ rule, rh.rules.get id = some rule → out[k]? = some rule) ∧
        (rh.rules.get id = none → out[k]? = some Rule.zero)) ∧
      out = ids.map (fun id =>
        match rh.rules.get id with
        | some rule => rule
        | none => Rule.zero) := by
  have hkey : packKey r = p := by
    unfold packKey
    rw [huri]
    exact TrimPrefix_append "/p/" p
  have hout : appendRules rh.rules [] ids = ids.map (fun id =>
      match rh.rules.get id with
      | some rule => rule
      | none => Rule.zero) := by
    rw [appendRules_eq, List.nil_append]
    apply List.map_congr_left
    intro id _
    unfold GoMap.index
    cases rh.rules.get id <;> rfl
  refine ⟨appendRules rh.rules [] ids, ?_, ?_, ?_, hout⟩
  · simp only [HandlePack, hkey, hp]
  · rw [hout, List.length_map]
  · intro k id hk
    rw [hout, List.getElem?_map, hk]
    constructor
    · intro rule hrule
      simp [hrule]
    · intro hnone
      simp [hnone]

/-- C1, on the sample registry: `GET /p/web` for the pack
`web: [sql-injection, xss]` with `xss` never loaded. -/
theorem HandlePack_serves_pack_witness :
    ∃ out : List Rule,
      HandlePack sampleHandler (Request.plain "GET" "/p/web") =
        { status := 200, contentType := "text/yaml", body := Body.yaml { Rules := out } } ∧
      out.length = ["sql-injection", "xss"].length ∧
      (∀ (k : Nat) (id : String), ["sql-injection", "xss"][k]? = some id →
        (∀ rule, sampleHandler.rules.get id = some rule → out[k]? = some rule) ∧
        (sampleHandler.rules.get id = none → out[k]? = some Rule.zero)) ∧
      out = ["sql-injection", "xss"].map (fun id =>
        match sampleHandler.rules.get id with
        | some rule => rule
        | none => Rule.zero) :=
  HandlePack_serves_pack sampleHandler (Request.plain "GET" "/p/web") "web"
    ["sql-injection", "xss"] rfl rfl

/-- C2: for an id `k` that is a key of the rule table, `HandleRule` on request
URI `/r/` followed by `k` answers 200 with content type text/yaml and the
encoding of a `rules` list whose single element is the rule stored under `k`,
unchanged. -/
theorem HandleRule_serves_rule (rh : rulesHandler) (r : Request) (k : String)
    (rule : Rule) (huri : r.RequestURI = "/r/" ++ k) (hk : rh.rules.get k = some rule) :
    HandleRule rh r =
      { status := 200, contentType := "text/yaml", body := Body.yaml { Rules := [rule] } } := by
  have hkey : ruleKey r = k := by
    unfold ruleKey
    rw [huri]
    exact TrimPrefix_append "/r/" k
  simp only [HandleRule, hkey, hk]

/-- C2, on the sample registry: `GET /r/sql-injection` yields the one-element
list holding `id: sql-injection, severity: high`. -/
theorem HandleRule_serves_rule_witness :
    HandleRule sampleHandler (Request.plain "GET" "/r/sql-injection") =
      { status := 200, contentType := "text/yaml",
        body := Body.yaml
          { Rules := [[("id", Value.str "sql-injection"), ("severity", Value.str "high")]] } } :=
  HandleRule_serves_rule sampleHandler (Request.plain "GET" "/r/sql-injection")
    "sql-injection" sqlInjection rfl rfl

/-- C3: on request URI `/r/` followed by `id` (and `/p/` followed by `name`),
the route answers 404 exactly when the key is not in its table; the 404
answer is the plain-text not-found page, with no text/yaml content type and
no rules document. -/
theorem notFound_iff_key_absent (rh : rulesHandler) (r r' : Request) (id name : String)
    (hr : r.RequestURI = "/r/" ++ id) (hp : r'.RequestURI = "/p/" ++ name) :
    ((HandleRule rh r).status = 404 ↔ id ∉ rh.rules.keys) ∧
    ((HandlePack rh r').status = 404 ↔ name ∉ rh.packs.keys) ∧
    (id ∉ rh.rules.keys → HandleRule rh r = NotFound) ∧
    (name ∉ rh.packs.keys → HandlePack rh r' = NotFound) ∧
    NotFound.status = 404 ∧ NotFound.contentType ≠ "text/yaml" ∧
    (∀ f, NotFound.body ≠ Body.yaml f) := by
  have hkr : ruleKey r = id := by
    unfold ruleKey
    rw [hr]
    exact TrimPrefix_append "/r/" id
  have hkp : packKey r' = name := by
    unfold packKey
    rw [hp]
    exact TrimPrefix_append "/p/" name
  refine ⟨?_, ?_, ?_, ?_, rfl, by decide, ?_⟩
  · rw [← GoMap.get_eq_none_iff]
    simp only [HandleRule, hkr]
    cases rh.rules.get id <;> simp [NotFound]
  · rw [← GoMap.get_eq_none_iff]
    simp only [HandlePack, hkp]
    cases rh.packs.get name <;> simp [NotFound]
  · intro h
    have h1 := (GoMap.get_eq_none_iff _ _).2 h
    simp only [HandleRule, hkr, h1]
  · intro h
    have h1 := (GoMap.get_eq_none_iff _ _).2 h
    simp only [HandlePack, hkp, h1]
  · intro f h
    simp [NotFound] at h

/-- C3, on the sample registry: `GET /r/unknown-id` and `GET /p/unknown-pack`. -/
theorem notFound_iff_key_absent_witness :
    "unknown-id" ∉ sampleHandler.rules.keys ∧ "unknown-pack" ∉ sampleHandler.packs.keys ∧
    HandleRule sampleHandler (Request.plain "GET" "/r/unknown-id") = NotFound ∧
    HandlePack sampleHandler (Request.plain "GET" "/p/unknown-pack") = NotFound :=
  have h := notFound_iff_key_absent sampleHandler (Request.plain "GET" "/r/unknown-id")
    (Request.plain "GET" "/p/unknown-pack") "unknown-id" "unknown-pack" rfl rfl
  ⟨by decide, by decide, h.2.2.1 (by decide), h.2.2.2.1 (by decide)⟩

/-- C6 as stated fails: the request `GET /r/sql-injection?x=1` has URL path
`/r/sql-injection`, yet the key looked up is `sql-injection?x=1`, which is
not a key of the sample registry, so the answer is 404. -/
theorem key_from_URL_path_fails :
    queryRequest.URL.Path = "/r/" ++ "sql-injection" ∧
    ruleKey queryRequest = "sql-injection?x=1" ∧
    ruleKey queryRequest ≠ "sql-injection" ∧
    sampleHandler.rules.get "sql-injection" = some sqlInjection ∧
    HandleRule sampleHandler queryRequest = NotFound := by
  refine ⟨by decide, by decide, by decide, rfl, rfl⟩

/-- C6, amended: the key is the literal remainder of the request URI (the
request-target as received, query string included) after the fixed prefix.
For every request whose `RequestURI` is `/r/` (respectively `/p/`) followed
by `k`, the key looked up is exactly `k`, also when `k` itself begins with
the prefix; and the key depends on nothing else in the request. -/
theorem key_is_remainder_of_RequestURI (r : Request) (k : String) :
    (r.RequestURI = "/r/" ++ k → ruleKey r = k) ∧
    (r.RequestURI = "/p/" ++ k → packKey r = k) ∧
    (∀ r' : Request, r'.RequestURI = r.RequestURI →
      ruleKey r' = ruleKey r ∧ packKey r' = packKey r) := by
  refine ⟨?_, ?_, ?_⟩
  · intro h
    unfold ruleKey
    rw [h]
    exact TrimPrefix_append "/r/" k
  · intro h
    unfold packKey
    rw [h]
    exact TrimPrefix_append "/p/" k
  · intro r' h
    simp only [ruleKey, packKey, h, and_self]

/-- C6, amended, on a key that begins with the prefix: request URI `/r//r/x`. -/
theorem key_is_remainder_of_RequestURI_witness :
    ruleKey (Request.plain "GET" "/r//r/x") = "/r/x" :=
  (key_is_remainder_of_RequestURI (Request.plain "GET" "/r//r/x") "/r/x").1 rfl

/-- C7 as stated fails: a `POST` to `/r/sql-injection` is answered with the
200 text/yaml rules document, and so is a `DELETE` to `/p/web`. -/
theorem method_is_not_checked :
    (Request.plain "POST" "/r/sql-injection").Method ≠ "GET" ∧
    HandleRule sampleHandler (Request.plain "POST" "/r/sql-injection") =
      { status := 200, contentType := "text/yaml",
        body := Body.yaml { Rules := [sqlInjection] } } ∧
    (Request.plain "DELETE" "/p/web").Method ≠ "GET" ∧
    HandlePack sampleHandler (Request.plain "DELETE" "/p/web") =
      { status := 200, contentType := "text/yaml",
        body := Body.yaml { Rules := [sqlInjection, Rule.zero] } } := by
  refine ⟨by decide, rfl, by decide, rfl⟩

/-- C7, amended: neither route looks at the request method. For every
registry, every request and every method `m` put in its place, a key that is
in the table is answered with the 200 text/yaml rules document (the stored
rule for `/r/`, the pack's rules or zero-value rules in declared order for
`/p/`), and the answer is the one given to the same request sent with `GET`. -/
theorem rules_document_served_for_any_method (rh : rulesHandler) (r : Request)
    (m k : String) :
    (∀ rule, r.RequestURI = "/r/" ++ k → rh.rules.get k = some rule →
      HandleRule rh { r with Method := m } =
        { status := 200, contentType := "text/yaml",
          body := Body.yaml { Rules := [rule] } }) ∧
    (∀ ids, r.RequestURI = "/p/" ++ k → rh.packs.get k = some ids →
      HandlePack rh { r with Method := m } =
        { status := 200, contentType := "text/yaml",
          body := Body.yaml { Rules := ids.map (GoMap.index Rule.zero rh.rules) } }) ∧
    HandleRule rh { r with Method := m } = HandleRule rh { r with Method := "GET" } ∧
    HandlePack rh { r with Method := m } = HandlePack rh { r with Method := "GET" } := by
  refine ⟨?_, ?_, rfl, rfl⟩
  · intro rule huri hk
    have hkey : ruleKey { r with Method := m } = k := by
      unfold ruleKey
      rw [show ({ r with Method := m } : Request).RequestURI = r.RequestURI from rfl, huri]
      exact TrimPrefix_append "/r/" k
    simp only [HandleRule, hkey, hk]
  · intro ids huri hk
    have hkey : packKey { r with Method := m } = k := by
      unfold packKey
      rw [show ({ r with Method := m } : Request).RequestURI = r.RequestURI from rfl, huri]
      exact TrimPrefix_append "/p/" k
    simp only [HandlePack, hkey, hk, appendRules_eq, List.nil_append]

/-- C7, amended, on the sample registry: a `PUT` to `/r/sql-injection` and a
`POST` to `/p/web` are answered with the rules document. -/
theorem rules_document_served_for_any_method_witness :
    HandleRule sampleHandler { Request.plain "GET" "/r/sql-injection" with Method := "PUT" } =
      { status := 200, contentType := "text/yaml",
        body := Body.yaml { Rules := [sqlInjection] } } ∧
    HandlePack sampleHandler { Request.plain "GET" "/p/web" with Method := "POST" } =
      { status := 200, contentType := "text/yaml",
        body := Body.yaml
          { Rules := ["sql-injection", "xss"].map (GoMap.index Rule.zero sampleHandler.rules) } } :=
  ⟨(rules_document_served_for_any_method sampleHandler
      (Request.plain "GET" "/r/sql-injection") "PUT" "sql-injection").1 sqlInjection rfl rfl,
    (rules_document_served_for_any_method sampleHandler
      (Request.plain "GET" "/p/web") "POST" "web").2.1 ["sql-injection", "xss"] rfl rfl⟩

/-! ## The loader -/

/-- C4: when every rule of every parsed document has a string id, the walk
does not fault, the keys of the rule table are exactly the ids occurring in
the flattened sequence of parsed rules, each id is mapped to the last rule of
that sequence carrying it, no id is kept twice, and the number of loaded
rules is the number of distinct ids. -/
theorem loadRules_last_write_wins (env : Env) (dir : String)
    (hids : ∀ d ∈ parsedDocs env (env.walk dir), ∀ r ∈ d.Rules, ruleId r ≠ none) :
    (loadRules env dir).flow ≠ Flow.panicked ∧
    (∀ k, k ∈ (loadRules env dir).rules.keys ↔
      ∃ r ∈ flattenRules (parsedDocs env (env.walk dir)), ruleId r = some k) ∧
    (∀ k r, (loadRules env dir).rules.get k = some r ↔
      ∃ pre post, flattenRules (parsedDocs env (env.walk dir)) = pre ++ r :: post ∧
        ruleId r = some k ∧ ∀ r' ∈ post, ruleId r' ≠ some k) ∧
    (loadRules env dir).rules.keys.Nodup ∧
    (loadRules env dir).rules.len =
      ((flattenRules (parsedDocs env (env.walk dir))).filterMap ruleId).dedup.length := by
  have hload : (loadRules env dir).flow ≠ Flow.panicked := by
    intro h
    obtain ⟨d, hd, r, hr, hid⟩ := (loadRules_panicked_iff env dir).1 h
    exact hids d hd r hr hid
  have hkeys : ∀ k, k ∈ (loadRules env dir).rules.keys ↔
      ∃ r ∈ flattenRules (parsedDocs env (env.walk dir)), ruleId r = some k := by
    intro k
    rw [GoMap.mem_keys_iff, loadRules_get env dir k hload]
    constructor
    · rintro ⟨v, hv⟩
      by_contra hne
      have hnone := (lastWithId_eq_none_iff k _).2 (fun r hr hid => hne ⟨r, hr, hid⟩)
      rw [hnone] at hv
      cases hv
    · rintro ⟨r, hr, hid⟩
      cases hl : lastWithId k (flattenRules (parsedDocs env (env.walk dir))) with
      | none => exact absurd hid ((lastWithId_eq_none_iff k _).1 hl r hr)
      | some v => exact ⟨v, rfl⟩
  have hnodup : (loadRules env dir).rules.keys.Nodup := by
    rw [(loadRules_spec env dir).1]
    exact insertRules_nodup _ _ List.nodup_nil
  refine ⟨hload, hkeys, ?_, hnodup, ?_⟩
  · intro k r
    rw [loadRules_get env dir k hload]
    exact lastWithId_eq_some_iff k _ r
  · have hset : (loadRules env dir).rules.keys.toFinset =
        ((flattenRules (parsedDocs env (env.walk dir))).filterMap ruleId).toFinset := by
      ext k
      rw [List.mem_toFinset, List.mem_toFinset, hkeys k, List.mem_filterMap]
    have hlen : (loadRules env dir).rules.len = (loadRules env dir).rules.keys.length := by
      simp [GoMap.len, GoMap.keys]
    rw [hlen, ← List.toFinset_card_of_nodup hnodup, hset, List.card_toFinset]

/-- C4, on the sample directory: two files carry the id `sql-injection`; one
rule is retained, the one processed last. -/
theorem loadRules_last_write_wins_witness :
    (loadRules sampleEnv "./patterns/").flow ≠ Flow.panicked ∧
    (loadRules sampleEnv "./patterns/").rules.get "sql-injection" = some sqlInjectionLow ∧
    (loadRules sampleEnv "./patterns/").rules.len = 1 :=
  have h := loadRules_last_write_wins sampleEnv "./patterns/" (by decide)
  ⟨h.1, (h.2.2.1 "sql-injection" sqlInjectionLow).2
      ⟨[sqlInjection], [], rfl, rfl, fun _ hm => nomatch hm⟩, h.2.2.2.2.trans rfl⟩

/-- C5 as stated fails: in the sample directory the rule
`id: sql-injection, severity: high` is loaded from a parsed document and has
a string id, yet looking its id up returns the fields of the later rule with
the same id, `severity: low`. -/
theorem GetRule_not_every_loaded_rule :
    flattenRules (parsedDocs sampleEnv (sampleEnv.walk "./patterns/"))
      = [sqlInjection, sqlInjectionLow] ∧
    ruleId sqlInjection = some "sql-injection" ∧
    (loadRules sampleEnv "./patterns/").flow = Flow.running ∧
    (loadRules sampleEnv "./patterns/").rules.get "sql-injection" = some sqlInjectionLow ∧
    sqlInjectionLow ≠ sqlInjection := by
  refine ⟨rfl, rfl, rfl, rfl, ?_⟩
  intro h
  simp [sqlInjection, sqlInjectionLow] at h

/-- C5, amended: when the loader builds a registry, a loaded rule with string
id `k` that no rule processed later shares is what the lookup of `k` returns,
with exactly its fields, and what `HandleRule` serves for `/r/` followed by
`k`. -/
theorem GetRule_returns_last_loaded (env : Env) (dir : String) (pre post : List Rule)
    (r : Rule) (k : String)
    (hload : (loadRules env dir).flow ≠ Flow.panicked)
    (hsplit : flattenRules (parsedDocs env (env.walk dir)) = pre ++ r :: post)
    (hid : ruleId r = some k)
    (hlast : ∀ r' ∈ post, ruleId r' ≠ some k) :
    (loadRules env dir).rules.get k = some r ∧
    ∀ (packs : GoMap (List String)) (req : Request), req.RequestURI = "/r/" ++ k →
      HandleRule { rules := (loadRules env dir).rules, packs := packs } req =
        { status := 200, contentType := "text/yaml", body := Body.yaml { Rules := [r] } } := by
  have hget : (loadRules env dir).rules.get k = some r := by
    rw [loadRules_get env dir k hload, hsplit]
    exact lastWithId_of_split k pre post r hid hlast
  refine ⟨hget, ?_⟩
  intro packs req huri
  have hkey : ruleKey req = k := by
    unfold ruleKey
    rw [huri]
    exact TrimPrefix_append "/r/" k
  simp only [HandleRule, hkey, hget]

/-- C5, amended, on the sample directory: the last rule under `sql-injection`. -/
theorem GetRule_returns_last_loaded_witness :
    (loadRules sampleEnv "./patterns/").rules.get "sql-injection" = some sqlInjectionLow :=
  (GetRule_returns_last_loaded sampleEnv "./patterns/" [sqlInjection] [] sqlInjectionLow
    "sql-injection" (by decide) rfl rfl (fun _ hm => nomatch hm)).1

/-- C8: the loader faults exactly when some rule of some parsed document has
no string id, that is no `id` field or an `id` that is not a string; whether
or not it faults, a rule without a string id is stored under no key, and
every stored rule sits under its own id. -/
theorem loader_faults_iff_bad_id (env : Env) (dir : String) :
    ((loadRules env dir).flow = Flow.panicked ↔
      ∃ d ∈ parsedDocs env (env.walk dir), ∃ r ∈ d.Rules, ruleId r = none) ∧
    (∀ r, ruleId r = none ↔
      (r.get "id" = none ∨ ∃ v, r.get "id" = some v ∧ ∀ s, v ≠ Value.str s)) ∧
    (∀ r, ruleId r = none → ∀ k, (loadRules env dir).rules.get k ≠ some r) ∧
    (∀ k r, (loadRules env dir).rules.get k = some r → ruleId r = some k) := by
  have hkeyed : ∀ k r, (loadRules env dir).rules.get k = some r → ruleId r = some k := by
    rw [(loadRules_spec env dir).1]
    apply insertRules_keyed
    intro k r h
    cases h
  refine ⟨loadRules_panicked_iff env dir, ?_, ?_, hkeyed⟩
  · intro r
    unfold ruleId
    cases hg : r.get "id" with
    | none => simp
    | some v => cases v <;> simp
  · intro r hnone k hget
    rw [hkeyed k r hget] at hnone
    cases hnone

/-- C8, on a directory whose second file holds a rule with a numeric id: the
loader faults there, the first file's rule is in the table, the offending rule
and the third file's rule are not. -/
theorem loader_faults_iff_bad_id_witness :
    (loadRules faultyEnv "rules").flow = Flow.panicked ∧
    (loadRules faultyEnv "rules").rules = [("sql-injection", sqlInjection)] :=
  ⟨(loader_faults_iff_bad_id faultyEnv "rules").1.2
      ⟨{ Rules := [numericId] }, List.mem_cons_of_mem _ (List.mem_cons_self _ _),
        numericId, List.mem_cons_self _ _, rfl⟩, rfl⟩

/-- C9: a visit whose file does not read or does not parse, or whose
extension is not `.yml`, leaves the rule table and the control flow as they
were; the rule table (and whether the loader faults) is the same as for the
walk with all such visits removed. -/
theorem skipped_documents_contribute_nothing (env : Env) (dir : String) :
    (Walk env LoadState.init ((env.walk dir).filter (fun e => !e.skipped env))).rules
      = (loadRules env dir).rules ∧
    ((Walk env LoadState.init ((env.walk dir).filter (fun e => !e.skipped env))).flow
        = Flow.panicked ↔ (loadRules env dir).flow = Flow.panicked) ∧
    (∀ (st : LoadState) (e : WalkEntry), e.skipped env = true →
      (walkFn env st e).rules = st.rules ∧ (walkFn env st e).flow = st.flow) ∧
    (∀ (st : LoadState) (e : WalkEntry), e.err = false → Ext e.path ≠ ".yml" →
      walkFn env st e = st) := by
  have h1 := Walk_spec env LoadState.init
    ((env.walk dir).filter (fun e => !e.skipped env)) rfl
  rw [parsedDocs_filter] at h1
  have h2 := loadRules_spec env dir
  refine ⟨h1.1.trans h2.1.symm, h1.2.trans h2.2.symm, ?_, ?_⟩
  · intro st e hs
    simp only [WalkEntry.skipped, Bool.and_eq_true, Bool.not_eq_true', Bool.or_eq_true,
      decide_eq_true_eq] at hs
    obtain ⟨herr, hrest⟩ := hs
    by_cases hext : Ext e.path ≠ ".yml"
    · simp [walkFn, herr, hext]
    · rcases hrest with hx | hx
      · exact absurd hx hext
      · cases hread : env.readFile e.path with
        | none => simp [walkFn, herr, hext, hread]
        | some b =>
          rw [hread] at hx
          cases hparse : env.unmarshalRules b with
          | none => simp [walkFn, herr, hext, hread, hparse]
          | some r =>
            simp only [hparse, Option.isNone_some] at hx
            cases hx
  · intro st e herr hext
    simp [walkFn, herr, hext]

/-- C9, on the sample directory: the unparseable `bad.yml`, the unreadable
`locked.yml`, `notes.txt` and the root are skipped, and the rules of `a.yml` and `b.yml`
are loaded as if those three files were not there. -/
theorem skipped_documents_contribute_nothing_witness :
    (sampleEnv.walk "./patterns/").filter (fun e => !e.skipped sampleEnv) =
      [⟨"patterns/a.yml", false⟩, ⟨"patterns/b.yml", false⟩,
        ⟨"patterns/packs.yml", false⟩] ∧
    (Walk sampleEnv LoadState.init
      [⟨"patterns/a.yml", false⟩, ⟨"patterns/b.yml", false⟩,
        ⟨"patterns/packs.yml", false⟩]).rules = (loadRules sampleEnv "./patterns/").rules :=
  ⟨rfl, (skipped_documents_contribute_nothing sampleEnv "./patterns/").1⟩

/-! ## Start-up -/

theorem main_of_loaded (env : Env) (flags : Flags)
    (h : (loadRules env flags.dir).flow ≠ Flow.panicked) :
    main env flags =
      match loadPacks env flags.packyml (loadRules env flags.dir).rules with
      | Except.error ev =>
        Startup.fatal ((loadRules env flags.dir).log
          ++ [LogEvent.loadedRules (loadRules env flags.dir).rules.len] ++ [ev])
      | Except.ok (packs, plog) =>
        if env.listen flags.listen then
          Startup.serving { rules := (loadRules env flags.dir).rules, packs := packs }
            flags.listen
            ((loadRules env flags.dir).log
              ++ [LogEvent.loadedRules (loadRules env flags.dir).rules.len] ++ plog
              ++ [LogEvent.loadedPacks packs.len, LogEvent.listening flags.listen])
        else
          Startup.listenFailed { rules := (loadRules env flags.dir).rules, packs := packs }
            flags.listen
            ((loadRules env flags.dir).log
              ++ [LogEvent.loadedRules (loadRules env flags.dir).rules.len] ++ plog
              ++ [LogEvent.loadedPacks packs.len, LogEvent.listening flags.listen,
                LogEvent.fatalError]) := by
  unfold main
  cases hf : (loadRules env flags.dir).flow with
  | panicked => exact absurd hf h
  | running => simp only [hf]
  | stopped => simp only [hf]

theorem main_serving (env : Env) (flags : Flags) (packs : GoMap (List String))
    (plog : List LogEvent) (h : (loadRules env flags.dir).flow ≠ Flow.panicked)
    (hl : loadPacks env flags.packyml (loadRules env flags.dir).rules = Except.ok (packs, plog))
    (hlisten : env.listen flags.listen = true) :
    main env flags =
      Startup.serving { rules := (loadRules env flags.dir).rules, packs := packs }
        flags.listen
        ((loadRules env flags.dir).log
          ++ [LogEvent.loadedRules (loadRules env flags.dir).rules.len] ++ plog
          ++ [LogEvent.loadedPacks packs.len, LogEvent.listening flags.listen]) := by
  rw [main_of_loaded env flags h, hl]
  simp only [hlisten, if_true]

theorem main_of_panicked (env : Env) (flags : Flags)
    (h : (loadRules env flags.dir).flow = Flow.panicked) :
    main env flags = Startup.panicked (loadRules env flags.dir).log := by
  unfold main
  simp only [h]

theorem loadPacks_failure (env : Env) (packyml : String) (rules : GoMap Rule)
    (hne : packyml ≠ "")
    (hfail : env.readFile packyml = none ∨
      ∃ b, env.readFile packyml = some b ∧ env.unmarshalPacks b = none) :
    ∃ ev, loadPacks env packyml rules = Except.error ev := by
  rcases hfail with hread | ⟨b, hread, hparse⟩
  · refine ⟨LogEvent.errorReading packyml, ?_⟩
    simp only [loadPacks, if_pos hne, hread]
  · refine ⟨LogEvent.errorLoading packyml, ?_⟩
    simp only [loadPacks, if_pos hne, hread, hparse]

theorem loadPacks_ok_iff (env : Env) (packyml : String) (rules : GoMap Rule) :
    (∃ res, loadPacks env packyml rules = Except.ok res) ↔
      (packyml = "" ∨
        ∃ b packs, env.readFile packyml = some b ∧ env.unmarshalPacks b = some packs) := by
  by_cases hne : packyml = ""
  · simp [loadPacks, hne]
  · cases hread : env.readFile packyml with
    | none => simp [loadPacks, hne, hread]
    | some b =>
      cases hparse : env.unmarshalPacks b with
      | none => simp [loadPacks, hne, hread, hparse]
      | some packs => simp [loadPacks, hne, hread, hparse]

/-- C10 as stated fails at the empty manifest path: no file can be read at
the empty path, yet start-up does not abort; the manifest load is passed over
and Serving is reached with the loaded rules and an empty pack table. -/
theorem empty_manifest_path_reaches_serving :
    noManifest.packyml = "" ∧
    sampleEnv.readFile noManifest.packyml = none ∧
    ∃ l, main sampleEnv noManifest =
      Startup.serving { rules := [("sql-injection", sqlInjectionLow)], packs := [] }
        ":8080" l :=
  ⟨rfl, rfl, _, rfl⟩

/-- C10, amended. For every non-empty manifest path, if reading the file or
unmarshalling its content fails, start-up never reaches Serving and never
gets to the listener: once the rule walk has returned it ends in the fatal
exit before the handler is built. With the empty path the manifest is not
read, and when the manifest reads and parses the pack table is kept exactly
as parsed, each pack id that is not a key of the rule table being only
logged; in both cases Serving is reached provided the rule walk did not
panic and the listener binds. Serving is reached exactly when the rule walk
did not panic, the manifest path is empty or the manifest reads and parses,
and the listener binds. -/
theorem manifest_failure_is_fatal (env : Env) (flags : Flags) :
    (flags.packyml ≠ "" →
      (env.readFile flags.packyml = none ∨
        ∃ b, env.readFile flags.packyml = some b ∧ env.unmarshalPacks b = none) →
      (∀ h a l, main env flags ≠ Startup.serving h a l) ∧
      (∀ h a l, main env flags ≠ Startup.listenFailed h a l) ∧
      ((loadRules env flags.dir).flow ≠ Flow.panicked →
        ∃ l, main env flags = Startup.fatal l)) ∧
    (flags.packyml = "" → (loadRules env flags.dir).flow ≠ Flow.panicked →
      env.listen flags.listen = true →
      ∃ l, main env flags =
        Startup.serving { rules := (loadRules env flags.dir).rules, packs := [] }
          flags.listen l) ∧
    (∀ b packs, flags.packyml ≠ "" → env.readFile flags.packyml = some b →
      env.unmarshalPacks b = some packs →
      (loadRules env flags.dir).flow ≠ Flow.panicked →
      env.listen flags.listen = true →
      ∃ l, main env flags =
          Startup.serving { rules := (loadRules env flags.dir).rules, packs := packs.Packs }
            flags.listen l ∧
        ∀ name ids id, (name, ids) ∈ packs.Packs → id ∈ ids →
          (loadRules env flags.dir).rules.get id = none →
          LogEvent.unknownRule ids id ∈ l) ∧
    ((∃ h a l, main env flags = Startup.serving h a l) ↔
      ((loadRules env flags.dir).flow ≠ Flow.panicked ∧
        (flags.packyml = "" ∨
          ∃ b packs, env.readFile flags.packyml = some b ∧
            env.unmarshalPacks b = some packs) ∧
        env.listen flags.listen = true)) := by
  refine ⟨?_, ?_, ?_, ?_⟩
  · intro hne hfail
    obtain ⟨ev, hev⟩ := loadPacks_failure env flags.packyml
      (loadRules env flags.dir).rules hne hfail
    have hfatal : (loadRules env flags.dir).flow ≠ Flow.panicked →
        main env flags = Startup.fatal ((loadRules env flags.dir).log
          ++ [LogEvent.loadedRules (loadRules env flags.dir).rules.len] ++ [ev]) := by
      intro hp
      rw [main_of_loaded env flags hp, hev]
    refine ⟨?_, ?_, fun hp => ⟨_, hfatal hp⟩⟩
    · intro h a l heq
      by_cases hp : (loadRules env flags.dir).flow = Flow.panicked
      · rw [main_of_panicked env flags hp] at heq
        cases heq
      · rw [hfatal hp] at heq
        cases heq
    · intro h a l heq
      by_cases hp : (loadRules env flags.dir).flow = Flow.panicked
      · rw [main_of_panicked env flags hp] at heq
        cases heq
      · rw [hfatal hp] at heq
        cases heq
  · intro hempty hp hlisten
    have hl : loadPacks env flags.packyml (loadRules env flags.dir).rules
        = Except.ok ([], []) := by
      simp only [loadPacks, hempty, ne_eq, not_true_eq_false, if_false]
    exact ⟨_, main_serving env flags [] [] hp hl hlisten⟩
  · intro b packs hne hread hparse hp hlisten
    have hl : loadPacks env flags.packyml (loadRules env flags.dir).rules
        = Except.ok (packs.Packs, checkPacks (loadRules env flags.dir).rules packs.Packs) := by
      simp only [loadPacks, if_pos hne, hread, hparse]
    refine ⟨_, main_serving env flags _ _ hp hl hlisten, ?_⟩
    · intro name ids id hmem hid hnone
      apply List.mem_append_left
      apply List.mem_append_right
      exact mem_checkPacks _ _ name ids _ hmem (mem_checkPack _ ids ids id hid hnone)
  · constructor
    · rintro ⟨h, a, l, heq⟩
      by_cases hp : (loadRules env flags.dir).flow = Flow.panicked
      · rw [main_of_panicked env flags hp] at heq
        cases heq
      · rw [main_of_loaded env flags hp] at heq
        cases hl : loadPacks env flags.packyml (loadRules env flags.dir).rules with
        | error ev =>
          rw [hl] at heq
          cases heq
        | ok res =>
          refine ⟨hp, (loadPacks_ok_iff env flags.packyml _).1 ⟨res, hl⟩, ?_⟩
          rw [hl] at heq
          by_contra hlisten
          simp only [hlisten] at heq
          cases heq
    · rintro ⟨hp, hman, hlisten⟩
      obtain ⟨⟨packs, plog⟩, hres⟩ := (loadPacks_ok_iff env flags.packyml
        (loadRules env flags.dir).rules).2 hman
      exact ⟨_, _, _, main_serving env flags packs plog hp hres hlisten⟩

/-- C10, amended, on the sample directory: a manifest path with no file ends
in the fatal exit; the sample manifest, whose pack `web` names the unloaded
id `xss`, reaches Serving with the pack as declared. -/
theorem manifest_failure_is_fatal_witness :
    (∃ l, main sampleEnv missingManifest = Startup.fatal l) ∧
    (∃ l, main sampleEnv Flags.default =
        Startup.serving
          { rules := (loadRules sampleEnv "./patterns/").rules,
            packs := [("web", ["sql-injection", "xss"])] } ":8080" l ∧
      LogEvent.unknownRule ["sql-injection", "xss"] "xss" ∈ l) ∧
    ¬ (∃ h a l, main sampleEnv badListen = Startup.serving h a l) :=
  ⟨((manifest_failure_is_fatal sampleEnv missingManifest).1 (by decide) (Or.inl rfl)).2.2
      (by decide),
    match (manifest_failure_is_fatal sampleEnv Flags.default).2.2.1 "packs: web"
        { Packs := [("web", ["sql-injection", "xss"])] } (by decide) rfl rfl (by decide)
        rfl with
    | ⟨l, hl, hlog⟩ =>
      ⟨l, hl, hlog "web" ["sql-injection", "xss"] "xss" (List.mem_cons_self _ _)
        (List.mem_cons_of_mem _ (List.mem_cons_self _ _)) rfl⟩,
    fun hs => absurd
      ((manifest_failure_is_fatal sampleEnv badListen).2.2.2.1 hs).2.2 (by decide)⟩

end RuleServer
